import Mathlib

/-!
Verification of the PTY-session / command-environment core of the
clawrunner desktop application.

The development shallowly embeds the Rust sources:
 * `src-tauri/src/openclaw.rs`  — the secure command/environment builder
 * `src-tauri/src/pty_manager.rs` — the session registry, kill teardown,
    the output reader loop and the session-id allocator
 * `src-tauri/src/lib.rs` — the command glue (argument validation,
    settings replacement in `pty_spawn`)

Strings are modelled with Lean `String`, child environments as functions
`String → Option String`, byte streams as `List Nat` (each element a byte
value < 256), and the fallible OS operations (PTY open, spawn, handle
acquisition) as explicit `Except`-valued parameters.
-/

/-! ## Settings (settings.rs) -/

/-- Mirror of `Settings` from `settings.rs`: the `apiKeys` map, modelled as an
association list of key/value pairs (a `HashMap` has unique keys; theorems
that need uniqueness assume it explicitly). -/
structure Settings where
  api_keys : List (String × String)
deriving DecidableEq, Repr

/-! ## Environment model -/

/-- A child-process environment: a finite map from variable names to values,
modelled extensionally. `CommandBuilder::env` overwrites any prior binding. -/
def EnvMap : Type := String → Option String

/-- Mirror of `CommandBuilder::env(key, value)`. -/
def envSet (e : EnvMap) (key value : String) : EnvMap :=
  fun n => if n = key then some value else e n

/-- Mirror of `CommandBuilder::env_clear()`: the empty environment. -/
def emptyEnv : EnvMap := fun _ => none

/-! ## openclaw.rs: is_allowed_env_key and the passthrough allowlist -/

/-- Mirror of `is_allowed_env_key` (openclaw.rs lines 10–14):
`key.len() <= 64 && key.chars().all(|c| c.is_ascii_alphanumeric() || c == '_')
&& key.ends_with("_API_KEY")`.  Rust's `str::len` is the UTF-8 byte length,
rendered here as the sum of the UTF-8 sizes of the characters; `ends_with` on
an all-ASCII needle coincides with character-level suffix. -/
def is_allowed_env_key (key : String) : Bool :=
  decide ((key.toList.map Char.utf8Size).sum ≤ 64)
  && key.toList.all (fun c => c.isAlphanum || c = '_')
  && List.isSuffixOf "_API_KEY".toList key.toList

/-- Mirror of `PASSTHROUGH_ENV_VARS` (openclaw.rs lines 19–38). -/
def PASSTHROUGH_ENV_VARS : List String :=
  [ "HOME", "USER", "LOGNAME", "SHELL",
    "LANG", "LC_ALL", "LC_CTYPE", "LC_MESSAGES", "LC_COLLATE",
    "LC_MONETARY", "LC_NUMERIC", "LC_TIME", "LANGUAGE",
    "TMPDIR", "TMP", "TEMP",
    "DISPLAY", "WAYLAND_DISPLAY", "XDG_RUNTIME_DIR",
    "__CF_USER_TEXT_ENCODING",
    "SSH_AUTH_SOCK", "SSH_AGENT_PID",
    "HTTP_PROXY", "HTTPS_PROXY", "NO_PROXY",
    "http_proxy", "https_proxy", "no_proxy",
    "NODE_EXTRA_CA_CERTS" ]

/-- The passthrough loop of `build_openclaw_command` (openclaw.rs lines
163–167): for each allowlisted var, copy it from the parent environment when
present. -/
def passFold (parent : EnvMap) (vars : List String) (e : EnvMap) : EnvMap :=
  vars.foldl
    (fun acc var =>
      match parent var with
      | some val => envSet acc var val
      | none => acc)
    e

/-- The secret-injection loop of `build_openclaw_command` (openclaw.rs lines
193–197): `if !value.is_empty() && is_allowed_env_key(key) { cmd.env(key, value) }`. -/
def secretsFold (api_keys : List (String × String)) (e : EnvMap) : EnvMap :=
  api_keys.foldl
    (fun acc kv =>
      if !(kv.2 == "") && is_allowed_env_key kv.1 then envSet acc kv.1 kv.2 else acc)
    e

/-- The sub-multiset of user secrets that `build_openclaw_command` actually
injects: the pairs passing the value-nonempty and key-allowlist test. -/
def injectedSecrets (api_keys : List (String × String)) : List (String × String) :=
  api_keys.filter (fun kv => !(kv.2 == "") && is_allowed_env_key kv.1)

/-- The PATH value computed by `build_openclaw_command` (openclaw.rs lines
172–183): the parent's PATH (empty when absent) with the node binary's
directory prepended when that directory is non-empty. -/
def pathVal (parent : EnvMap) (node_dir : Option String) : String :=
  let path0 := (parent "PATH").getD ""
  match node_dir with
  | some nd =>
    if nd = "" then path0
    else if path0 = "" then nd else nd ++ ":" ++ path0
  | none => path0

/-- The environment part of `build_openclaw_command` (openclaw.rs lines
147–213).  `parent` is the parent process environment (`std::env::var`),
`node_dir` is `node_path.parent()` (`none` when absent, `some ""` in the
dev fallback where the binary name has no directory), `state_dir` the
resolved state directory.  The Unix path separator ":" is used.  Steps in
source order: env_clear, passthrough loop, TERM, PATH (set only when
non-empty), the two OPENCLAW_* isolation vars, then the user-secret
injection loop. -/
def build_openclaw_env (parent : EnvMap) (node_dir : Option String)
    (state_dir : String) (api_keys : List (String × String)) : EnvMap :=
  let e := emptyEnv
  let e := passFold parent PASSTHROUGH_ENV_VARS e
  let e := envSet e "TERM" "xterm-256color"
  let e := if pathVal parent node_dir = "" then e
           else envSet e "PATH" (pathVal parent node_dir)
  let e := envSet e "OPENCLAW_NO_RESPAWN" "1"
  let e := envSet e "OPENCLAW_STATE_DIR" state_dir
  secretsFold api_keys e

/-- The secret-name predicate as the specification words it: the key consists
only of ASCII letters, digits or underscore, has length at most 64, ends with
the suffix `_API_KEY`, and the value is non-empty. -/
def claimSecretPredicate (k v : String) : Prop :=
  (∀ c ∈ k.toList,
      ('A' ≤ c ∧ c ≤ 'Z') ∨ ('a' ≤ c ∧ c ≤ 'z') ∨ ('0' ≤ c ∧ c ≤ '9') ∨ c = '_')
  ∧ k.toList.length ≤ 64
  ∧ "_API_KEY".toList <:+ k.toList
  ∧ v ≠ ""

instance (k v : String) : Decidable (claimSecretPredicate k v) := by
  unfold claimSecretPredicate; infer_instance

/-! ## Helper lemmas for the environment builder -/

/-- The source's per-character test equals the specification's character
ranges. -/
lemma allowed_char_iff (c : Char) :
    (c.isAlphanum || decide (c = '_')) = true ↔
      (('A' ≤ c ∧ c ≤ 'Z') ∨ ('a' ≤ c ∧ c ≤ 'z') ∨ ('0' ≤ c ∧ c ≤ '9') ∨ c = '_') := by
  simp only [Bool.or_eq_true, decide_eq_true_eq, Char.isAlphanum, Char.isAlpha,
    Char.isDigit, Char.isUpper, Char.isLower, Bool.and_eq_true]
  constructor
  · rintro (((⟨h1, h2⟩ | ⟨h1, h2⟩) | ⟨h1, h2⟩) | h)
    · exact Or.inl ⟨h1, h2⟩
    · exact Or.inr (Or.inl ⟨h1, h2⟩)
    · exact Or.inr (Or.inr (Or.inl ⟨h1, h2⟩))
    · exact Or.inr (Or.inr (Or.inr h))
  · rintro (⟨h1, h2⟩ | ⟨h1, h2⟩ | ⟨h1, h2⟩ | h)
    · exact Or.inl (Or.inl (Or.inl ⟨h1, h2⟩))
    · exact Or.inl (Or.inl (Or.inr ⟨h1, h2⟩))
    · exact Or.inl (Or.inr ⟨h1, h2⟩)
    · exact Or.inr h

/-- An accepted character is ASCII, hence occupies one UTF-8 byte. -/
lemma utf8Size_one_of_allowed (c : Char)
    (h : (c.isAlphanum || decide (c = '_')) = true) : c.utf8Size = 1 := by
  simp only [Bool.or_eq_true, decide_eq_true_eq, Char.isAlphanum, Char.isAlpha,
    Char.isDigit, Char.isUpper, Char.isLower, Bool.and_eq_true] at h
  unfold Char.utf8Size
  simp only []
  rw [if_pos]
  show c.val.toBitVec.toNat ≤ (UInt32.ofNatCore 127 Char.utf8Size.proof_1).toBitVec.toNat
  have h127 : (UInt32.ofNatCore 127 Char.utf8Size.proof_1).toBitVec.toNat = 127 := by decide
  rw [h127]
  rcases h with ((⟨h1, h2⟩ | ⟨h1, h2⟩) | ⟨h1, h2⟩) | h
  · have : c.val.toBitVec.toNat ≤ 90 := h2
    omega
  · have : c.val.toBitVec.toNat ≤ 122 := h2
    omega
  · have : c.val.toBitVec.toNat ≤ 57 := h2
    omega
  · subst h; decide

/-- When every character is one byte, the UTF-8 byte length is the character
count. -/
lemma sum_utf8_eq_length (l : List Char) (h : ∀ c ∈ l, c.utf8Size = 1) :
    (l.map Char.utf8Size).sum = l.length := by
  induction l with
  | nil => rfl
  | cons a t ih =>
    simp only [List.map_cons, List.sum_cons, List.length_cons, h a (by simp),
      ih (fun c hc => h c (by simp [hc]))]
    omega

/-- The injection test of the source equals the specification's predicate. -/
lemma allowed_key_iff (k v : String) :
    (!(v == "") && is_allowed_env_key k) = true ↔ claimSecretPredicate k v := by
  unfold is_allowed_env_key claimSecretPredicate
  simp only [Bool.and_eq_true, decide_eq_true_eq, List.all_eq_true,
    List.isSuffixOf_iff_suffix, Bool.not_eq_true', beq_eq_false_iff_ne, ne_eq]
  constructor
  · rintro ⟨hv, ⟨hlen, hchar⟩, hsuf⟩
    have hsz : ∀ c ∈ k.toList, c.utf8Size = 1 :=
      fun c hc => utf8Size_one_of_allowed c (hchar c hc)
    rw [sum_utf8_eq_length k.toList hsz] at hlen
    exact ⟨fun c hc => (allowed_char_iff c).1 (hchar c hc), hlen, hsuf, hv⟩
  · rintro ⟨hchar, hlen, hsuf, hv⟩
    have hchar' : ∀ c ∈ k.toList, (c.isAlphanum || decide (c = '_')) = true :=
      fun c hc => (allowed_char_iff c).2 (hchar c hc)
    have hsz : ∀ c ∈ k.toList, c.utf8Size = 1 :=
      fun c hc => utf8Size_one_of_allowed c (hchar' c hc)
    rw [sum_utf8_eq_length k.toList hsz]
    exact ⟨hv, ⟨hlen, hchar'⟩, hsuf⟩

/-- Membership in the injected sub-list is exactly the specification's
predicate. -/
lemma mem_injectedSecrets (api_keys : List (String × String)) (k v : String) :
    (k, v) ∈ injectedSecrets api_keys ↔
      (k, v) ∈ api_keys ∧ claimSecretPredicate k v := by
  unfold injectedSecrets
  rw [List.mem_filter]
  exact and_congr_right fun _ => allowed_key_iff k v


/-- Unfolding equation for one step of the secret-injection loop. -/
lemma secretsFold_cons (kv : String × String) (t : List (String × String)) (e : EnvMap) :
    secretsFold (kv :: t) e =
      secretsFold t
        (if (!(kv.2 == "") && is_allowed_env_key kv.1) = true
         then envSet e kv.1 kv.2 else e) := rfl

/-- Unfolding equation for one step of the passthrough loop. -/
lemma passFold_cons (parent : EnvMap) (v : String) (t : List String) (e : EnvMap) :
    passFold parent (v :: t) e =
      passFold parent t
        (match parent v with
         | some val => envSet e v val
         | none => e) := rfl

/-- Folding all user secrets equals folding only the accepted ones. -/
lemma secretsFold_eq_injected (api_keys : List (String × String)) (e : EnvMap) :
    secretsFold api_keys e = secretsFold (injectedSecrets api_keys) e := by
  induction api_keys generalizing e with
  | nil => rfl
  | cons kv t ih =>
    rw [secretsFold_cons]
    by_cases hc : (!(kv.2 == "") && is_allowed_env_key kv.1) = true
    · rw [if_pos hc]
      have hf : injectedSecrets (kv :: t) = kv :: injectedSecrets t := by
        simp only [injectedSecrets, List.filter_cons]
        rw [if_pos hc]
      rw [hf, secretsFold_cons, if_pos hc]
      exact ih _
    · rw [if_neg hc]
      have hf : injectedSecrets (kv :: t) = injectedSecrets t := by
        simp only [injectedSecrets, List.filter_cons]
        rw [if_neg hc]
      rw [hf]
      exact ih _

/-- A variable whose name fails `is_allowed_env_key` is never touched by the
secret-injection loop. -/
lemma secretsFold_apply_not_allowed (api_keys : List (String × String))
    (e : EnvMap) (n : String) (hn : is_allowed_env_key n = false) :
    secretsFold api_keys e n = e n := by
  induction api_keys generalizing e with
  | nil => rfl
  | cons kv t ih =>
    rw [secretsFold_cons]
    by_cases hc : (!(kv.2 == "") && is_allowed_env_key kv.1) = true
    · rw [if_pos hc, ih]
      unfold envSet
      rw [if_neg]
      intro hk
      rcases (Bool.and_eq_true ..).mp hc with ⟨-, hall⟩
      rw [hk, hall] at hn
      cases hn
    · rw [if_neg hc, ih]

/-- A variable that is no secret's key is never touched by the
secret-injection loop. -/
lemma secretsFold_apply_no_key (api_keys : List (String × String))
    (e : EnvMap) (n : String) (hn : ∀ kv ∈ api_keys, kv.1 ≠ n) :
    secretsFold api_keys e n = e n := by
  induction api_keys generalizing e with
  | nil => rfl
  | cons kv t ih =>
    rw [secretsFold_cons]
    have ht : ∀ p ∈ t, p.1 ≠ n := fun p hp => hn p (by simp [hp])
    by_cases hc : (!(kv.2 == "") && is_allowed_env_key kv.1) = true
    · rw [if_pos hc, ih _ ht]
      unfold envSet
      rw [if_neg]
      intro hk
      exact hn kv (by simp) hk.symm
    · rw [if_neg hc, ih _ ht]

/-- The secret-injection loop is pointwise congruent in its starting
environment. -/
lemma secretsFold_congr_at (api_keys : List (String × String))
    (e e' : EnvMap) (n : String) (h : e n = e' n) :
    secretsFold api_keys e n = secretsFold api_keys e' n := by
  induction api_keys generalizing e e' with
  | nil => exact h
  | cons kv t ih =>
    rw [secretsFold_cons, secretsFold_cons]
    by_cases hc : (!(kv.2 == "") && is_allowed_env_key kv.1) = true
    · rw [if_pos hc, if_pos hc]
      refine ih _ _ ?_
      unfold envSet
      by_cases hk : n = kv.1
      · rw [if_pos hk, if_pos hk]
      · rw [if_neg hk, if_neg hk]
        exact h
    · rw [if_neg hc, if_neg hc]
      exact ih _ _ h

/-- Pointwise description of the passthrough loop. -/
lemma passFold_apply (parent : EnvMap) (l : List String) (e : EnvMap) (n : String) :
    passFold parent l e n =
      if n ∈ l ∧ (parent n).isSome then parent n else e n := by
  induction l generalizing e with
  | nil =>
    rw [if_neg]
    · rfl
    · rintro ⟨h, -⟩
      exact List.not_mem_nil n h
  | cons v t ih =>
    rw [passFold_cons]
    cases hp : parent v with
    | some val =>
      show passFold parent t (envSet e v val) n = _
      rw [ih]
      by_cases ht : n ∈ t ∧ (parent n).isSome
      · rw [if_pos ht, if_pos ⟨List.mem_cons_of_mem v ht.1, ht.2⟩]
      · rw [if_neg ht]
        unfold envSet
        by_cases hv : n = v
        · subst hv
          rw [if_pos rfl, if_pos ⟨List.mem_cons_self n t, by rw [hp]; rfl⟩]
          exact hp.symm
        · rw [if_neg hv, if_neg]
          rintro ⟨hin, hs⟩
          rcases List.mem_cons.mp hin with h1 | h1
          · exact hv h1
          · exact ht ⟨h1, hs⟩
    | none =>
      show passFold parent t e n = _
      rw [ih]
      by_cases ht : n ∈ t ∧ (parent n).isSome
      · rw [if_pos ht, if_pos ⟨List.mem_cons_of_mem v ht.1, ht.2⟩]
      · rw [if_neg ht, if_neg]
        rintro ⟨hin, hs⟩
        rcases List.mem_cons.mp hin with h1 | h1
        · subst h1
          rw [hp] at hs
          cases hs
        · exact ht ⟨h1, hs⟩
lemma envSet_apply (e : EnvMap) (k v n : String) :
    envSet e k v n = if n = k then some v else e n := rfl

lemma build_env_eq (parent : EnvMap) (nd : Option String) (sd : String)
    (api_keys : List (String × String)) :
    build_openclaw_env parent nd sd api_keys =
      secretsFold api_keys (build_openclaw_env parent nd sd []) := rfl

lemma build_base_apply (parent : EnvMap) (nd : Option String) (sd : String) (n : String) :
    build_openclaw_env parent nd sd [] n =
      if n = "OPENCLAW_STATE_DIR" then some sd
      else if n = "OPENCLAW_NO_RESPAWN" then some "1"
      else if n = "PATH" ∧ pathVal parent nd ≠ "" then some (pathVal parent nd)
      else if n = "TERM" then some "xterm-256color"
      else if n ∈ PASSTHROUGH_ENV_VARS ∧ (parent n).isSome then parent n
      else none := by
  have hrep : build_openclaw_env parent nd sd [] =
      envSet (envSet
        (if pathVal parent nd = "" then
          envSet (passFold parent PASSTHROUGH_ENV_VARS emptyEnv) "TERM" "xterm-256color"
        else
          envSet (envSet (passFold parent PASSTHROUGH_ENV_VARS emptyEnv)
            "TERM" "xterm-256color") "PATH" (pathVal parent nd))
        "OPENCLAW_NO_RESPAWN" "1") "OPENCLAW_STATE_DIR" sd := rfl
  rw [hrep, envSet_apply]
  by_cases h1 : n = "OPENCLAW_STATE_DIR"
  · rw [if_pos h1, if_pos h1]
  · rw [if_neg h1, if_neg h1, envSet_apply]
    by_cases h2 : n = "OPENCLAW_NO_RESPAWN"
    · rw [if_pos h2, if_pos h2]
    · rw [if_neg h2, if_neg h2]
      by_cases hp : pathVal parent nd = ""
      · rw [if_pos hp, envSet_apply,
          if_neg (show ¬(n = "PATH" ∧ pathVal parent nd ≠ "") from fun hq => hq.2 hp)]
        by_cases h3 : n = "TERM"
        · rw [if_pos h3, if_pos h3]
        · rw [if_neg h3, if_neg h3, passFold_apply]
          rfl
      · rw [if_neg hp, envSet_apply]
        by_cases h4 : n = "PATH"
        · rw [if_pos h4, if_pos ⟨h4, hp⟩]
        · rw [if_neg h4,
            if_neg (show ¬(n = "PATH" ∧ pathVal parent nd ≠ "") from fun hq => h4 hq.1),
            envSet_apply]
          by_cases h3 : n = "TERM"
          · rw [if_pos h3, if_pos h3]
          · rw [if_neg h3, if_neg h3, passFold_apply]
            rfl

/-! ## Claim theorems: C1 and C2 -/

/-- C1: `build_openclaw_command` injects a user-supplied secret key/value pair
into the child environment if and only if the key consists only of ASCII
letters, digits or underscore, has length at most 64, ends with the suffix
`_API_KEY`, and the value is non-empty; a failing pair is silently dropped
(the builder is total, no error is produced).  In particular a secret named
`PATH` leaves the built environment's `PATH` unchanged while a conforming
`FOO_API_KEY = abc` appears in the environment. -/
theorem secret_injection_policy :
    (∀ (api_keys : List (String × String)) (k v : String),
        (k, v) ∈ injectedSecrets api_keys ↔
          (k, v) ∈ api_keys ∧ claimSecretPredicate k v)
    ∧ (∀ parent node_dir state_dir api_keys,
        build_openclaw_env parent node_dir state_dir api_keys =
          secretsFold (injectedSecrets api_keys)
            (build_openclaw_env parent node_dir state_dir []))
    ∧ (∀ parent node_dir state_dir,
        build_openclaw_env parent node_dir state_dir
            [("PATH", "/evil"), ("FOO_API_KEY", "abc")] "PATH" =
          build_openclaw_env parent node_dir state_dir [] "PATH"
        ∧ build_openclaw_env parent node_dir state_dir
            [("PATH", "/evil"), ("FOO_API_KEY", "abc")] "FOO_API_KEY" = some "abc") := by
  refine ⟨fun api_keys k v => mem_injectedSecrets api_keys k v,
          fun parent nd sd api => ?_,
          fun parent nd sd => ⟨?_, ?_⟩⟩
  · rw [build_env_eq]
    exact secretsFold_eq_injected api (build_openclaw_env parent nd sd [])
  · simp only [build_openclaw_env, secretsFold, List.foldl_cons, List.foldl_nil]
    rw [if_pos (by decide), if_neg (by decide)]
    simp [envSet]
  · simp only [build_openclaw_env, secretsFold, List.foldl_cons, List.foldl_nil]
    rw [if_pos (by decide), if_neg (by decide)]
    simp [envSet]

/-- Witness for C1: the conforming pair is injected, the `PATH` pair is
dropped. -/
theorem secret_injection_policy_witness :
    ("FOO_API_KEY", "abc") ∈ injectedSecrets [("PATH", "/evil"), ("FOO_API_KEY", "abc")]
    ∧ ("PATH", "/evil") ∉ injectedSecrets [("PATH", "/evil"), ("FOO_API_KEY", "abc")] := by
  constructor
  · exact (secret_injection_policy.1 _ _ _).mpr ⟨by decide, by decide⟩
  · intro hmem
    exact absurd ((secret_injection_policy.1 _ _ _).mp hmem).2 (by decide)

/-- C2 counterexample: the claim "no parent variable outside the passthrough
allowlist reaches the child" fails for `PATH`: `PATH` is not a member of
`PASSTHROUGH_ENV_VARS`, yet with an empty node directory (the dev fallback)
the parent's `PATH` value is copied verbatim into the child environment, and
the child's `PATH` depends on the parent's. -/
theorem passthrough_only_counterexample :
    ("PATH" : String) ∉ PASSTHROUGH_ENV_VARS
    ∧ build_openclaw_env (fun n => if n = "PATH" then some "/evil-path" else none)
        (some "") "/state" [] "PATH" = some "/evil-path"
    ∧ build_openclaw_env (fun _ => none) (some "") "/state" [] "PATH" = none := by
  refine ⟨by decide, by decide, by decide⟩

/-- C2 (amended): the child environment starts empty; a variable in the fixed
passthrough allowlist is copied from the parent exactly when present there;
apart from `PATH` — which is rebuilt from the parent's `PATH` with the node
directory prepended — no other parent variable reaches the child; and a name
that is neither allowlisted, nor one of the builder-set variables, nor an
injected secret key ends up unset. -/
theorem passthrough_allowlist_amended :
    ∀ (parent parent' : EnvMap) (node_dir : Option String) (state_dir : String)
      (api_keys : List (String × String)) (n : String),
      (n ∈ PASSTHROUGH_ENV_VARS →
        build_openclaw_env parent node_dir state_dir api_keys n = parent n)
      ∧ (n ∉ PASSTHROUGH_ENV_VARS → n ≠ "PATH" →
        build_openclaw_env parent node_dir state_dir api_keys n =
          build_openclaw_env parent' node_dir state_dir api_keys n)
      ∧ (n ∉ PASSTHROUGH_ENV_VARS →
        n ∉ (["TERM", "PATH", "OPENCLAW_NO_RESPAWN", "OPENCLAW_STATE_DIR"] : List String) →
        (∀ kv ∈ api_keys, kv.1 ≠ n) →
        build_openclaw_env parent node_dir state_dir api_keys n = none) := by
  intro parent parent' nd sd api n
  refine ⟨fun hn => ?_, fun hn hpath => ?_, fun hn hset hkeys => ?_⟩
  · have hno : is_allowed_env_key n = false := by
      have hall : ∀ x ∈ PASSTHROUGH_ENV_VARS, is_allowed_env_key x = false := by decide
      exact hall n hn
    rw [build_env_eq parent nd sd api, secretsFold_apply_not_allowed _ _ _ hno,
        build_base_apply parent nd sd n]
    rw [if_neg (fun h => absurd hn (by rw [h]; decide)),
        if_neg (fun h => absurd hn (by rw [h]; decide)),
        if_neg (fun h : n = "PATH" ∧ _ => absurd hn (by rw [h.1]; decide)),
        if_neg (fun h => absurd hn (by rw [h]; decide))]
    cases hp : parent n with
    | some val =>
      rw [if_pos ⟨hn, rfl⟩]
    | none =>
      rw [if_neg (fun h => Bool.false_ne_true h.2)]
  · rw [build_env_eq parent nd sd api, build_env_eq parent' nd sd api]
    refine secretsFold_congr_at _ _ _ _ ?_
    rw [build_base_apply parent nd sd n, build_base_apply parent' nd sd n]
    by_cases h1 : n = "OPENCLAW_STATE_DIR"
    · rw [if_pos h1, if_pos h1]
    · rw [if_neg h1, if_neg h1]
      by_cases h2 : n = "OPENCLAW_NO_RESPAWN"
      · rw [if_pos h2, if_pos h2]
      · rw [if_neg h2, if_neg h2,
            if_neg (fun h : n = "PATH" ∧ _ => hpath h.1),
            if_neg (fun h : n = "PATH" ∧ _ => hpath h.1)]
        by_cases h3 : n = "TERM"
        · rw [if_pos h3, if_pos h3]
        · rw [if_neg h3, if_neg h3,
              if_neg (fun h : n ∈ PASSTHROUGH_ENV_VARS ∧ _ => hn h.1),
              if_neg (fun h : n ∈ PASSTHROUGH_ENV_VARS ∧ _ => hn h.1)]
  · have h1 : n ≠ "TERM" := fun h => hset (by rw [h]; decide)
    have h2 : n ≠ "PATH" := fun h => hset (by rw [h]; decide)
    have h3 : n ≠ "OPENCLAW_NO_RESPAWN" := fun h => hset (by rw [h]; decide)
    have h4 : n ≠ "OPENCLAW_STATE_DIR" := fun h => hset (by rw [h]; decide)
    rw [build_env_eq parent nd sd api, secretsFold_apply_no_key _ _ _ hkeys,
        build_base_apply parent nd sd n,
        if_neg h4, if_neg h3, if_neg (fun h : n = "PATH" ∧ _ => h2 h.1), if_neg h1,
        if_neg (fun h : n ∈ PASSTHROUGH_ENV_VARS ∧ _ => hn h.1)]

/-- Witness for the amended C2: a concrete allowlisted variable is copied from
the parent, and a concrete non-allowlisted, non-`PATH` name is independent of
the parent environment. -/
theorem passthrough_allowlist_amended_witness :
    build_openclaw_env (fun _ => some "pv") (some "/nd") "/st"
        [("FOO_API_KEY", "abc")] "HOME" = some "pv"
    ∧ build_openclaw_env (fun _ => some "x") (some "/nd") "/st" []
          "AWS_SECRET_ACCESS_KEY" =
        build_openclaw_env (fun _ => none) (some "/nd") "/st" []
          "AWS_SECRET_ACCESS_KEY" := by
  constructor
  · exact (passthrough_allowlist_amended (fun _ => some "pv") (fun _ => none)
      (some "/nd") "/st" [("FOO_API_KEY", "abc")] "HOME").1 (by decide)
  · exact (passthrough_allowlist_amended (fun _ => some "x") (fun _ => none)
      (some "/nd") "/st" [] "AWS_SECRET_ACCESS_KEY").2.1 (by decide) (by decide)

/-! ## pty_manager.rs: the output reader loop

Bytes are modelled as `Nat` values (< 256 on real inputs).  The UTF-8
validation below mirrors Rust's `core::str` validation table exactly:
2-byte leads C2–DF with one continuation; 3-byte leads E0 (A0–BF), E1–EC
(80–BF), ED (80–9F), EE–EF (80–BF) with a trailing continuation; 4-byte
leads F0 (90–BF), F1–F3 (80–BF), F4 (80–8F) with two trailing
continuations. -/

/-- Test for a UTF-8 continuation byte (0x80–0xBF). -/
def contB (b : Nat) : Bool := 128 ≤ b && b ≤ 191

/-- Lower bound for a second byte, by lead byte. -/
def sndLo (b0 : Nat) : Nat := if b0 = 224 then 160 else if b0 = 240 then 144 else 128

/-- Upper bound for a second byte, by lead byte. -/
def sndHi (b0 : Nat) : Nat := if b0 = 237 then 159 else if b0 = 244 then 143 else 191

/-- Range test for a second byte, by lead byte. -/
def sndB (b0 b1 : Nat) : Bool := sndLo b0 ≤ b1 && b1 ≤ sndHi b0

/-- Length of the complete, valid UTF-8 character at the head of `l`, or
`none` when the head is not a complete valid character (invalid bytes and
truncated sequences both give `none`). -/
def utf8CharLen : List Nat → Option Nat
  | [] => none
  | b0 :: rest =>
    if b0 < 128 then some 1
    else if 194 ≤ b0 && b0 ≤ 223 then
      match rest with
      | b1 :: _ => if contB b1 then some 2 else none
      | [] => none
    else if 224 ≤ b0 && b0 ≤ 239 then
      match rest with
      | b1 :: b2 :: _ => if sndB b0 b1 && contB b2 then some 3 else none
      | _ => none
    else if 240 ≤ b0 && b0 ≤ 244 then
      match rest with
      | b1 :: b2 :: b3 :: _ =>
        if sndB b0 b1 && contB b2 && contB b3 then some 4 else none
      | _ => none
    else none

/-- Fuel-indexed scanner computing Rust's `Utf8Error::valid_up_to`: the
length of the longest prefix of `l` that is valid UTF-8. -/
def utf8ValidUpToAux : Nat → List Nat → Nat
  | 0, _ => 0
  | fuel + 1, l =>
    match utf8CharLen l with
    | some k => k + utf8ValidUpToAux fuel (l.drop k)
    | none => 0

/-- The length of the longest prefix of `l` that is valid UTF-8; this is the
`valid_up_to` the reader loop obtains from `std::str::from_utf8` (and the
full length when the buffer is entirely valid). -/
def utf8ValidUpTo (l : List Nat) : Nat := utf8ValidUpToAux l.length l

/-- The number of bytes `String::from_utf8_lossy` consumes for one maximal
invalid subpart at the head of `l` (always at least 1). -/
def utf8Subpart : List Nat → Nat
  | [] => 1
  | b0 :: rest =>
    if 224 ≤ b0 && b0 ≤ 239 then
      match rest with
      | b1 :: _ => if sndB b0 b1 then 2 else 1
      | [] => 1
    else if 240 ≤ b0 && b0 ≤ 244 then
      match rest with
      | b1 :: b2 :: _ => if sndB b0 b1 then (if contB b2 then 3 else 2) else 1
      | [b1] => if sndB b0 b1 then 2 else 1
      | [] => 1
    else 1

/-- Fuel-indexed body of `String::from_utf8_lossy`, producing the UTF-8
bytes of the lossy decoding: valid characters are copied, each maximal
invalid subpart is replaced by U+FFFD (bytes EF BF BD). -/
def lossyDecodeAux : Nat → List Nat → List Nat
  | 0, _ => []
  | _ + 1, [] => []
  | fuel + 1, l =>
    match utf8CharLen l with
    | some k => l.take k ++ lossyDecodeAux fuel (l.drop k)
    | none => 239 :: 191 :: 189 :: lossyDecodeAux fuel (l.drop (utf8Subpart l))

/-- Mirror of `String::from_utf8_lossy` (as UTF-8 bytes of the result). -/
def lossyDecode (l : List Nat) : List Nat := lossyDecodeAux l.length l

/-- Mirror of `MAX_LEFTOVER_SIZE` (pty_manager.rs line 12). -/
def MAX_LEFTOVER_SIZE : Nat := 65536

/-- One `Ok(n)` iteration of the reader loop (pty_manager.rs lines 195–226):
append the chunk to the leftover buffer; if the buffer now exceeds the cap,
emit one lossy data payload and clear it; otherwise emit the longest valid
prefix (when non-empty) and retain the undecoded suffix.  Returns the event
payloads emitted this iteration and the new leftover buffer. -/
def readerIter (leftover chunk : List Nat) : List (List Nat) × List Nat :=
  let lo := leftover ++ chunk
  if MAX_LEFTOVER_SIZE < lo.length then
    ([lossyDecode lo], [])
  else
    let v := utf8ValidUpTo lo
    (if 0 < v then [lo.take v] else [], lo.drop v)

/-- The reader loop over a sequence of successful reads, collecting all data
payloads and the final leftover buffer. -/
def runChunks : List Nat → List (List Nat) → List (List Nat) × List Nat
  | leftover, [] => ([], leftover)
  | leftover, c :: cs =>
    let r := readerIter leftover c
    let rest := runChunks r.2 cs
    (r.1 ++ rest.1, rest.2)

/-- Observer counting the iterations of the same loop that take the
cap-exceeded (lossy flush) branch. -/
def lossyFlushCount : List Nat → List (List Nat) → Nat
  | _, [] => 0
  | leftover, c :: cs =>
    let lo := leftover ++ c
    if MAX_LEFTOVER_SIZE < lo.length then 1 + lossyFlushCount [] cs
    else lossyFlushCount (lo.drop (utf8ValidUpTo lo)) cs

/-- Events emitted by the reader thread: `pty:data` payloads (as UTF-8 bytes
of the emitted string) and the terminal `pty:status` event. -/
inductive PtyEvent
  | data (sessionId : Nat) (payload : List Nat)
  | status (sessionId : Nat) (st : String) (errorMessage : Option String)
deriving DecidableEq, Repr

/-- How the read loop ends: clean EOF (`Ok(0)`) or a read error. -/
inductive ReadEnd
  | eof
  | readErr (msg : String)
deriving DecidableEq, Repr

/-- Mirror of `spawn_reader_thread` (pty_manager.rs lines 182–253): the full
event sequence produced by one run of the reader loop whose successful reads
return `chunks` and which then ends with `e`.  After the loop, any residual
leftover bytes are flushed lossily, then exactly one status event is emitted:
`stopped` on clean EOF, `error` (with the failure text) on a read error. -/
def spawn_reader_thread (sessionId : Nat) (chunks : List (List Nat))
    (e : ReadEnd) : List PtyEvent :=
  let r := runChunks [] chunks
  r.1.map (PtyEvent.data sessionId)
  ++ (if r.2 = [] then [] else [PtyEvent.data sessionId (lossyDecode r.2)])
  ++ [match e with
      | ReadEnd.eof => PtyEvent.status sessionId "stopped" none
      | ReadEnd.readErr m => PtyEvent.status sessionId "error" (some m)]

/-- The session id carried by an event. -/
def PtyEvent.sid : PtyEvent → Nat
  | .data s _ => s
  | .status s _ _ => s

/-- Status-event discriminator. -/
def isStatusEvent : PtyEvent → Bool
  | .status .. => true
  | .data .. => false

/-- Concatenation of all data payloads of an event list, in order. -/
def dataBytes (evs : List PtyEvent) : List Nat :=
  (evs.filterMap (fun ev => match ev with
    | .data _ p => some p
    | .status .. => none)).flatten

/-! ## UTF-8 scanner lemmas -/

set_option linter.unreachableTactic false
set_option linter.unusedTactic false

/-- A complete character is 1 to 4 bytes long. -/
lemma utf8CharLen_cases {l : List Nat} {k : Nat} (h : utf8CharLen l = some k) :
    k = 1 ∨ k = 2 ∨ k = 3 ∨ k = 4 := by
  unfold utf8CharLen at h
  repeat' split at h
  all_goals simp_all

/-- A complete character is at least one byte long. -/
lemma utf8CharLen_pos {l : List Nat} {k : Nat} (h : utf8CharLen l = some k) : 1 ≤ k := by
  rcases utf8CharLen_cases h with h | h | h | h <;> omega

/-- A complete character fits inside the buffer. -/
lemma utf8CharLen_le_length {l : List Nat} {k : Nat} (h : utf8CharLen l = some k) :
    k ≤ l.length := by
  match l with
  | [] => cases h
  | [b0] =>
    unfold utf8CharLen at h
    repeat' split at h
    all_goals simp_all
  | [b0, b1] =>
    unfold utf8CharLen at h
    repeat' split at h
    all_goals simp_all
  | [b0, b1, b2] =>
    unfold utf8CharLen at h
    repeat' split at h
    all_goals simp_all
    all_goals omega
  | b0 :: b1 :: b2 :: b3 :: rest =>
    unfold utf8CharLen at h
    repeat' split at h
    all_goals simp_all
    all_goals omega

/-- The head character's length only depends on the head character's bytes:
appending bytes does not change it. -/
lemma utf8CharLen_append {A : List Nat} {k : Nat} (B : List Nat)
    (h : utf8CharLen A = some k) : utf8CharLen (A ++ B) = some k := by
  match A with
  | [] => cases h
  | [b0] =>
    unfold utf8CharLen at h ⊢
    repeat' split at h
    all_goals simp_all
    all_goals (repeat' split)
    all_goals simp_all
    all_goals omega
  | [b0, b1] =>
    unfold utf8CharLen at h ⊢
    repeat' split at h
    all_goals simp_all
    all_goals (repeat' split)
    all_goals simp_all
    all_goals omega
  | [b0, b1, b2] =>
    unfold utf8CharLen at h ⊢
    repeat' split at h
    all_goals simp_all
    all_goals (repeat' split)
    all_goals simp_all
    all_goals omega
  | b0 :: b1 :: b2 :: b3 :: rest =>
    unfold utf8CharLen at h ⊢
    repeat' split at h
    all_goals simp_all
    all_goals (repeat' split)
    all_goals simp_all
    all_goals omega

/-- Truncating the buffer to exactly the head character keeps it. -/
lemma utf8CharLen_take_self {l : List Nat} {k : Nat} (h : utf8CharLen l = some k) :
    utf8CharLen (l.take k) = some k := by
  match l with
  | [] => cases h
  | [b0] =>
    unfold utf8CharLen at h
    repeat' split at h
    all_goals (try cases h)
    all_goals simp_all [utf8CharLen]
    all_goals (repeat' split)
    all_goals (first | rfl | omega | simp_all)
  | [b0, b1] =>
    unfold utf8CharLen at h
    repeat' split at h
    all_goals (try cases h)
    all_goals simp_all [utf8CharLen]
    all_goals (repeat' split)
    all_goals (first | rfl | omega | simp_all)
  | [b0, b1, b2] =>
    unfold utf8CharLen at h
    repeat' split at h
    all_goals (try cases h)
    all_goals simp_all [utf8CharLen]
    all_goals (repeat' split)
    all_goals (first | rfl | omega | simp_all)
  | b0 :: b1 :: b2 :: b3 :: rest =>
    unfold utf8CharLen at h
    repeat' split at h
    all_goals (try cases h)
    all_goals simp_all [utf8CharLen]
    all_goals (repeat' split)
    all_goals (first | rfl | omega | simp_all)

/-- Truncating the buffer anywhere at or after the head character keeps it. -/
lemma utf8CharLen_take {l : List Nat} {k m : Nat} (h : utf8CharLen l = some k)
    (hm : k ≤ m) : utf8CharLen (l.take m) = some k := by
  have h1 : utf8CharLen (l.take k) = some k := utf8CharLen_take_self h
  have h2 : l.take m = l.take k ++ (l.take m).drop k := by
    conv_lhs => rw [← List.take_append_drop k (l.take m)]
    rw [List.take_take, min_eq_left hm]
  rw [h2]
  exact utf8CharLen_append _ h1

/-- The fuel-indexed scanner is independent of the fuel once the fuel covers
the buffer length. -/
lemma utf8ValidUpToAux_congr : ∀ (f g : Nat) (l : List Nat),
    l.length ≤ f → l.length ≤ g →
    utf8ValidUpToAux f l = utf8ValidUpToAux g l := by
  intro f
  induction f with
  | zero =>
    intro g l hf _
    have : l = [] := List.eq_nil_of_length_eq_zero (by omega)
    subst this
    cases g <;> simp [utf8ValidUpToAux, utf8CharLen]
  | succ f ih =>
    intro g l hf hg
    cases g with
    | zero =>
      have : l = [] := List.eq_nil_of_length_eq_zero (by omega)
      subst this
      simp [utf8ValidUpToAux, utf8CharLen]
    | succ g =>
      cases hc : utf8CharLen l with
      | none => simp [utf8ValidUpToAux, hc]
      | some k =>
        have hk1 := utf8CharLen_pos hc
        have hk2 := utf8CharLen_le_length hc
        simp only [utf8ValidUpToAux, hc]
        rw [ih g (l.drop k) (by simp [List.length_drop]; omega)
          (by simp [List.length_drop]; omega)]

/-- Unfolding: an invalid or incomplete head yields no valid prefix. -/
lemma utf8ValidUpTo_eq_zero_of_none {l : List Nat} (h : utf8CharLen l = none) :
    utf8ValidUpTo l = 0 := by
  unfold utf8ValidUpTo
  cases hn : l.length with
  | zero => rfl
  | succ n => simp [utf8ValidUpToAux, h]

/-- Unfolding: a valid head character extends the valid prefix. -/
lemma utf8ValidUpTo_eq_some {l : List Nat} {k : Nat} (h : utf8CharLen l = some k) :
    utf8ValidUpTo l = k + utf8ValidUpTo (l.drop k) := by
  have hk1 := utf8CharLen_pos h
  have hk2 := utf8CharLen_le_length h
  unfold utf8ValidUpTo
  cases hn : l.length with
  | zero =>
    have : l = [] := List.eq_nil_of_length_eq_zero hn
    subst this
    cases h
  | succ n =>
    simp only [utf8ValidUpToAux, h]
    rw [utf8ValidUpToAux_congr n (l.drop k).length (l.drop k)
      (by simp [List.length_drop]; omega) le_rfl]

/-- The valid prefix never exceeds the buffer. -/
lemma utf8ValidUpTo_le_length : ∀ (n : Nat) (l : List Nat), l.length ≤ n →
    utf8ValidUpTo l ≤ l.length := by
  intro n
  induction n with
  | zero =>
    intro l hl
    have : l = [] := List.eq_nil_of_length_eq_zero (by omega)
    subst this
    simp [utf8ValidUpTo, utf8ValidUpToAux]
  | succ n ih =>
    intro l hl
    cases hc : utf8CharLen l with
    | none => rw [utf8ValidUpTo_eq_zero_of_none hc]; omega
    | some k =>
      have hk1 := utf8CharLen_pos hc
      have hk2 := utf8CharLen_le_length hc
      rw [utf8ValidUpTo_eq_some hc]
      have := ih (l.drop k) (by simp [List.length_drop]; omega)
      simp [List.length_drop] at this
      omega

/-- The valid prefix of the buffer is itself entirely valid. -/
lemma utf8ValidUpTo_take_eq : ∀ (n : Nat) (l : List Nat), l.length ≤ n →
    utf8ValidUpTo (l.take (utf8ValidUpTo l)) = utf8ValidUpTo l := by
  intro n
  induction n with
  | zero =>
    intro l hl
    have : l = [] := List.eq_nil_of_length_eq_zero (by omega)
    subst this
    simp [utf8ValidUpTo, utf8ValidUpToAux]
  | succ n ih =>
    intro l hl
    cases hc : utf8CharLen l with
    | none => rw [utf8ValidUpTo_eq_zero_of_none hc]; simp [utf8ValidUpTo, utf8ValidUpToAux]
    | some k =>
      have hk1 := utf8CharLen_pos hc
      have hk2 := utf8CharLen_le_length hc
      rw [utf8ValidUpTo_eq_some hc]
      have hck : utf8CharLen (l.take (k + utf8ValidUpTo (l.drop k))) = some k :=
        utf8CharLen_take hc (by omega)
      rw [utf8ValidUpTo_eq_some hck, List.drop_take,
        Nat.add_sub_cancel_left]
      have := ih (l.drop k) (by simp [List.length_drop]; omega)
      omega

/-- After removing the valid prefix, nothing valid remains at the head. -/
lemma utf8ValidUpTo_drop_eq_zero : ∀ (n : Nat) (l : List Nat), l.length ≤ n →
    utf8ValidUpTo (l.drop (utf8ValidUpTo l)) = 0 := by
  intro n
  induction n with
  | zero =>
    intro l hl
    have : l = [] := List.eq_nil_of_length_eq_zero (by omega)
    subst this
    simp [utf8ValidUpTo, utf8ValidUpToAux]
  | succ n ih =>
    intro l hl
    cases hc : utf8CharLen l with
    | none =>
      rw [utf8ValidUpTo_eq_zero_of_none hc, List.drop_zero,
        utf8ValidUpTo_eq_zero_of_none hc]
    | some k =>
      have hk1 := utf8CharLen_pos hc
      have hk2 := utf8CharLen_le_length hc
      rw [utf8ValidUpTo_eq_some hc, ← List.drop_drop]
      exact ih (l.drop k) (by simp [List.length_drop]; omega)

/-- Valid prefixes compose: a wholly valid block followed by anything has its
valid prefix offset by the block. -/
lemma utf8ValidUpTo_append_valid : ∀ (n : Nat) (A B : List Nat), A.length ≤ n →
    utf8ValidUpTo A = A.length →
    utf8ValidUpTo (A ++ B) = A.length + utf8ValidUpTo B := by
  intro n
  induction n with
  | zero =>
    intro A B hn _
    have : A = [] := List.eq_nil_of_length_eq_zero (by omega)
    subst this
    simp
  | succ n ih =>
    intro A B hn hval
    cases hc : utf8CharLen A with
    | none =>
      rw [utf8ValidUpTo_eq_zero_of_none hc] at hval
      have : A = [] := List.eq_nil_of_length_eq_zero hval.symm
      subst this
      simp
    | some k =>
      have hk1 := utf8CharLen_pos hc
      have hk2 := utf8CharLen_le_length hc
      have hAB : utf8CharLen (A ++ B) = some k := utf8CharLen_append B hc
      rw [utf8ValidUpTo_eq_some hAB, List.drop_append_of_le_length hk2]
      have hdropval : utf8ValidUpTo (A.drop k) = (A.drop k).length := by
        rw [utf8ValidUpTo_eq_some hc] at hval
        have hle := utf8ValidUpTo_le_length (A.drop k).length (A.drop k) le_rfl
        simp only [List.length_drop] at *
        omega
      rw [ih (A.drop k) B (by simp [List.length_drop]; omega) hdropval]
      simp only [List.length_drop]
      omega

/-- A concatenation of wholly valid payloads is wholly valid. -/
lemma utf8ValidUpTo_flatten_valid (L : List (List Nat))
    (h : ∀ p ∈ L, utf8ValidUpTo p = p.length) :
    utf8ValidUpTo L.flatten = L.flatten.length := by
  induction L with
  | nil => simp [utf8ValidUpTo, utf8ValidUpToAux]
  | cons p t ih =>
    have hp := h p (by simp)
    have ht := ih (fun q hq => h q (by simp [hq]))
    simp only [List.flatten_cons]
    rw [utf8ValidUpTo_append_valid p.length p t.flatten le_rfl hp, ht,
      List.length_append]

/-! ## Reader-loop lemmas -/

/-- Unfolding equation for the flush counter. -/
lemma lossyFlushCount_cons (leftover c : List Nat) (cs : List (List Nat)) :
    lossyFlushCount leftover (c :: cs) =
      if MAX_LEFTOVER_SIZE < (leftover ++ c).length then 1 + lossyFlushCount [] cs
      else lossyFlushCount ((leftover ++ c).drop (utf8ValidUpTo (leftover ++ c))) cs := rfl

lemma runChunks_cons (leftover c : List Nat) (cs : List (List Nat)) :
    runChunks leftover (c :: cs) =
      ((readerIter leftover c).1 ++ (runChunks (readerIter leftover c).2 cs).1,
       (runChunks (readerIter leftover c).2 cs).2) := rfl

lemma runChunks_spec : ∀ (cs : List (List Nat)) (L : List Nat),
    utf8ValidUpTo L = 0 → lossyFlushCount L cs = 0 →
    (runChunks L cs).1.flatten ++ (runChunks L cs).2 = L ++ cs.flatten
    ∧ utf8ValidUpTo (runChunks L cs).2 = 0
    ∧ ∀ p ∈ (runChunks L cs).1, utf8ValidUpTo p = p.length := by
  intro cs
  induction cs with
  | nil =>
    intro L hL _
    exact ⟨by simp [runChunks], hL, by simp [runChunks]⟩
  | cons c t ih =>
    intro L hL hflush
    rw [lossyFlushCount_cons] at hflush
    by_cases hover : MAX_LEFTOVER_SIZE < (L ++ c).length
    · rw [if_pos hover] at hflush
      omega
    · rw [if_neg hover] at hflush
      have hri : readerIter L c =
          (if 0 < utf8ValidUpTo (L ++ c)
            then [(L ++ c).take (utf8ValidUpTo (L ++ c))] else [],
           (L ++ c).drop (utf8ValidUpTo (L ++ c))) := by
        unfold readerIter
        rw [if_neg hover]
      have hL2 : utf8ValidUpTo ((L ++ c).drop (utf8ValidUpTo (L ++ c))) = 0 :=
        utf8ValidUpTo_drop_eq_zero (L ++ c).length (L ++ c) le_rfl
      rw [runChunks_cons, hri]
      obtain ⟨ih1, ih2, ih3⟩ := ih ((L ++ c).drop (utf8ValidUpTo (L ++ c))) hL2 hflush
      refine ⟨?_, by simpa using ih2, ?_⟩
      · by_cases hv : 0 < utf8ValidUpTo (L ++ c)
        · rw [if_pos hv, List.flatten_append]
          simp only [List.flatten_cons, List.flatten_nil, List.append_nil]
          rw [List.append_assoc, ih1, ← List.append_assoc, List.take_append_drop,
            List.append_assoc]
        · rw [if_neg hv]
          have hv0 : utf8ValidUpTo (L ++ c) = 0 := by omega
          simp only [List.nil_append, List.flatten_cons]
          rw [hv0] at ih1 ⊢
          simp only [List.drop_zero] at ih1 ⊢
          rw [ih1, List.append_assoc]
      · intro p hp
        by_cases hv : 0 < utf8ValidUpTo (L ++ c)
        · rw [if_pos hv] at hp
          rcases List.mem_append.mp hp with h1 | h1
          · rcases List.mem_singleton.mp h1 with rfl
            have ht := utf8ValidUpTo_take_eq (L ++ c).length (L ++ c) le_rfl
            rw [ht, List.length_take,
              min_eq_left (utf8ValidUpTo_le_length (L ++ c).length (L ++ c) le_rfl)]
          · exact ih3 p h1
        · rw [if_neg hv] at hp
          simp only [List.nil_append] at hp
          exact ih3 p hp

/-- The data payloads of a reader run: all loop-emitted payloads, followed by
the lossy flush of any residual leftover. -/
lemma dataBytes_spawn (sid : Nat) (chunks : List (List Nat)) (e : ReadEnd) :
    dataBytes (spawn_reader_thread sid chunks e) =
      (runChunks [] chunks).1.flatten
      ++ (if (runChunks [] chunks).2 = [] then []
          else lossyDecode (runChunks [] chunks).2) := by
  unfold spawn_reader_thread dataBytes
  have hcomp : ((fun ev => match ev with
      | PtyEvent.data _ p => some p
      | PtyEvent.status _ _ _ => none) ∘ PtyEvent.data sid) = some := rfl
  cases e <;>
    by_cases hc : (runChunks [] chunks).2 = [] <;>
    simp [hc, List.filterMap_append, List.filterMap_map, hcomp, List.filterMap_some]

/-- C4: for every chunk sequence whose total content is valid UTF-8 and whose
leftover buffer never exceeds the 64 KiB cap (no lossy flush), the reader
loop ends with an empty leftover buffer, every emitted data payload is valid
UTF-8, and the concatenation of all emitted data events reproduces the
child's output bytes in order, without duplication or loss — including when a
multi-byte character is split across a read boundary. -/
theorem reader_loop_reassembles_utf8 (sid : Nat) (chunks : List (List Nat))
    (hvalid : utf8ValidUpTo chunks.flatten = chunks.flatten.length)
    (hcap : lossyFlushCount [] chunks = 0) :
    dataBytes (spawn_reader_thread sid chunks ReadEnd.eof) = chunks.flatten
    ∧ (runChunks [] chunks).2 = []
    ∧ ∀ p ∈ (runChunks [] chunks).1, utf8ValidUpTo p = p.length := by
  obtain ⟨h1, h2, h3⟩ := runChunks_spec chunks []
    (by simp [utf8ValidUpTo, utf8ValidUpToAux]) hcap
  simp only [List.nil_append] at h1
  have hEvalid : utf8ValidUpTo (runChunks [] chunks).1.flatten =
      (runChunks [] chunks).1.flatten.length := utf8ValidUpTo_flatten_valid _ h3
  have hLf : (runChunks [] chunks).2 = [] := by
    have happ := utf8ValidUpTo_append_valid (runChunks [] chunks).1.flatten.length
      (runChunks [] chunks).1.flatten (runChunks [] chunks).2 le_rfl hEvalid
    rw [h1, hvalid, h2] at happ
    have hlen : chunks.flatten.length =
        (runChunks [] chunks).1.flatten.length + (runChunks [] chunks).2.length := by
      rw [← List.length_append, h1]
    apply List.eq_nil_of_length_eq_zero
    omega
  refine ⟨?_, hLf, h3⟩
  rw [dataBytes_spawn, hLf, if_pos rfl, List.append_nil]
  rw [hLf, List.append_nil] at h1
  exact h1

/-- Witness for C4: the euro sign split across two reads, followed by an
ASCII byte, is reassembled byte-exactly. -/
theorem reader_loop_reassembles_utf8_witness :
    utf8ValidUpTo ([[226], [130, 172], [65]] : List (List Nat)).flatten =
      ([[226], [130, 172], [65]] : List (List Nat)).flatten.length
    ∧ lossyFlushCount [] [[226], [130, 172], [65]] = 0
    ∧ dataBytes (spawn_reader_thread 1 [[226], [130, 172], [65]] ReadEnd.eof) =
        [226, 130, 172, 65] := by
  refine ⟨by decide, by decide, ?_⟩
  exact (reader_loop_reassembles_utf8 1 [[226], [130, 172], [65]]
    (by decide) (by decide)).1

/-- A buffer of continuation bytes only (0x80–0xBF) has no valid prefix. -/
lemma contOnly_validUpTo_zero {l : List Nat} (h : ∀ b ∈ l, 128 ≤ b ∧ b ≤ 191) :
    utf8ValidUpTo l = 0 := by
  cases l with
  | nil => rfl
  | cons b rest =>
    apply utf8ValidUpTo_eq_zero_of_none
    have hb := h b (List.mem_cons_self b rest)
    simp only [utf8CharLen]
    split_ifs with h1 h2 h3 h4
    all_goals first
      | rfl
      | omega
      | (simp only [Bool.and_eq_true, decide_eq_true_eq] at *; omega)

lemma contOnly_no_flush_bound : ∀ (chunks : List (List Nat)) (L : List Nat),
    chunks ≠ [] →
    (∀ c ∈ chunks, ∀ b ∈ c, 128 ≤ b ∧ b ≤ 191) →
    (∀ b ∈ L, 128 ≤ b ∧ b ≤ 191) →
    lossyFlushCount L chunks = 0 →
    L.length + chunks.flatten.length ≤ MAX_LEFTOVER_SIZE := by
  intro chunks
  induction chunks with
  | nil => intro L h; cases h rfl
  | cons c t ih =>
    intro L _ hc hL hflush
    rw [lossyFlushCount_cons] at hflush
    by_cases hover : MAX_LEFTOVER_SIZE < (L ++ c).length
    · rw [if_pos hover] at hflush
      omega
    · rw [if_neg hover] at hflush
      have hLc : ∀ b ∈ L ++ c, 128 ≤ b ∧ b ≤ 191 := by
        intro b hb
        rcases List.mem_append.mp hb with h1 | h1
        · exact hL b h1
        · exact hc c (List.mem_cons_self c t) b h1
      have hv0 : utf8ValidUpTo (L ++ c) = 0 := contOnly_validUpTo_zero hLc
      rw [hv0, List.drop_zero] at hflush
      cases t with
      | nil =>
        simp only [List.flatten_cons, List.flatten_nil, List.append_nil]
        simp only [List.length_append, not_lt] at hover ⊢
        omega
      | cons c2 t2 =>
        have hrec := ih (L ++ c) (by simp)
          (fun c' hc' => hc c' (List.mem_cons_of_mem c hc')) hLc hflush
        simp only [List.length_append, List.flatten_cons, not_lt] at hrec hover ⊢
        omega

/-- C5: when appending a chunk makes the leftover buffer exceed the 64 KiB
ceiling, the whole buffer is flushed as one lossily-decoded data event and
cleared; the leftover retained after every iteration never exceeds the
ceiling; and sustained non-decodable output totalling more than 64 KiB forces
at least one lossy flush. -/
theorem leftover_cap_and_lossy_flush :
    (∀ leftover chunk : List Nat,
        MAX_LEFTOVER_SIZE < (leftover ++ chunk).length →
        readerIter leftover chunk = ([lossyDecode (leftover ++ chunk)], []))
    ∧ (∀ leftover chunk : List Nat,
        ((readerIter leftover chunk).2).length ≤ MAX_LEFTOVER_SIZE)
    ∧ (∀ chunks : List (List Nat),
        (∀ c ∈ chunks, ∀ b ∈ c, 128 ≤ b ∧ b ≤ 191) →
        MAX_LEFTOVER_SIZE < chunks.flatten.length →
        1 ≤ lossyFlushCount [] chunks) := by
  refine ⟨fun leftover chunk h => ?_, fun leftover chunk => ?_, fun chunks hb hlen => ?_⟩
  · unfold readerIter
    rw [if_pos h]
  · unfold readerIter
    by_cases hover : MAX_LEFTOVER_SIZE < (leftover ++ chunk).length
    · rw [if_pos hover]
      simp
    · rw [if_neg hover]
      simp only [List.length_drop, not_lt] at hover ⊢
      omega
  · by_contra h0
    have hz : lossyFlushCount [] chunks = 0 := by omega
    have hne : chunks ≠ [] := by
      intro h
      subst h
      simp [MAX_LEFTOVER_SIZE] at hlen
    have := contOnly_no_flush_bound chunks [] hne hb (by simp) hz
    simp only [List.length_nil, Nat.zero_add] at this
    omega

/-- Witness for C5: a 65540-byte buffer of continuation bytes triggers the
lossy flush; a single chunk never leaves the cap exceeded; 70000 bytes of
continuation bytes across two reads force at least one flush. -/
theorem leftover_cap_and_lossy_flush_witness :
    readerIter (List.replicate 65530 128) (List.replicate 10 128) =
      ([lossyDecode (List.replicate 65530 128 ++ List.replicate 10 128)], [])
    ∧ ((readerIter [] [65]).2).length ≤ MAX_LEFTOVER_SIZE
    ∧ 1 ≤ lossyFlushCount [] [List.replicate 40000 128, List.replicate 30000 128] := by
  refine ⟨leftover_cap_and_lossy_flush.1 _ _ ?_,
    leftover_cap_and_lossy_flush.2.1 _ _,
    leftover_cap_and_lossy_flush.2.2 _ ?_ ?_⟩
  · simp only [List.length_append, List.length_replicate, MAX_LEFTOVER_SIZE]
    omega
  · intro c hc b hbmem
    rcases List.mem_cons.mp hc with rfl | hc2
    · rcases List.eq_of_mem_replicate hbmem with rfl
      omega
    · rcases List.mem_singleton.mp hc2 with rfl
      rcases List.eq_of_mem_replicate hbmem with rfl
      omega
  · simp only [List.flatten_cons, List.flatten_nil, List.append_nil,
      List.length_append, List.length_replicate, MAX_LEFTOVER_SIZE]
    omega

/-- C6: every reader run emits exactly one terminal status event; it is the
last event, `stopped` with no message on clean EOF and `error` carrying the
failure text on a read error; when residual leftover bytes exist they are
flushed as one lossy data event immediately before the status event; and
every emitted event carries the session id. -/
theorem reader_terminal_status (sid : Nat) (chunks : List (List Nat)) (e : ReadEnd) :
    (spawn_reader_thread sid chunks e).countP (fun ev => isStatusEvent ev) = 1
    ∧ (spawn_reader_thread sid chunks e).getLast? =
        some (match e with
          | ReadEnd.eof => PtyEvent.status sid "stopped" none
          | ReadEnd.readErr m => PtyEvent.status sid "error" (some m))
    ∧ ((runChunks [] chunks).2 ≠ [] →
        spawn_reader_thread sid chunks e =
          (runChunks [] chunks).1.map (PtyEvent.data sid)
          ++ [PtyEvent.data sid (lossyDecode (runChunks [] chunks).2),
              match e with
              | ReadEnd.eof => PtyEvent.status sid "stopped" none
              | ReadEnd.readErr m => PtyEvent.status sid "error" (some m)])
    ∧ ∀ ev ∈ spawn_reader_thread sid chunks e, ev.sid = sid := by
  refine ⟨?_, ?_, ?_, ?_⟩
  · unfold spawn_reader_thread
    rw [List.countP_append, List.countP_append]
    have hA : ((runChunks [] chunks).1.map (PtyEvent.data sid)).countP
        (fun ev => isStatusEvent ev) = 0 := by
      rw [List.countP_map]
      simp [Function.comp, isStatusEvent]
    have hB : (if (runChunks [] chunks).2 = [] then []
        else [PtyEvent.data sid (lossyDecode (runChunks [] chunks).2)]).countP
        (fun ev => isStatusEvent ev) = 0 := by
      split_ifs <;> simp [isStatusEvent]
    have hS : ∀ s em, ([PtyEvent.status sid s em]).countP
        (fun ev => isStatusEvent ev) = 1 := by
      intro s em
      simp [isStatusEvent]
    cases e <;> simp [hA, hB] <;> simp [isStatusEvent]
  · simp only [spawn_reader_thread]
    rw [List.getLast?_concat]
  · intro hne
    simp only [spawn_reader_thread]
    rw [if_neg hne]
    simp
  · intro ev hev
    simp only [spawn_reader_thread] at hev
    rcases List.mem_append.mp hev with h1 | h1
    · rcases List.mem_append.mp h1 with h2 | h2
      · rcases List.mem_map.mp h2 with ⟨p, -, rfl⟩
        rfl
      · split_ifs at h2 with hc
        · cases h2
        · rcases List.mem_singleton.mp h2 with rfl
          rfl
    · rcases List.mem_singleton.mp h1 with rfl
      cases e <;> rfl

/-- Witness for C6: a run ending with an incomplete character flushes one
replacement-character data event and then exactly one `stopped` status. -/
theorem reader_terminal_status_witness :
    spawn_reader_thread 7 [[226]] ReadEnd.eof =
      [PtyEvent.data 7 [239, 191, 189], PtyEvent.status 7 "stopped" none] := by
  have h := (reader_terminal_status 7 [[226]] ReadEnd.eof).2.2.1 (by decide)
  rw [h]
  rfl

/-! ## pty_manager.rs: session registry, kill teardown, spawn rollback

The registry (`sessions: HashMap<u64, PtyInstance>`) is modelled as an
association list with (assumed where needed) pairwise-distinct keys; the
session payload is abstract.  OS-level effects of teardown are modelled as
an explicit action trace in source order. -/

/-- One teardown/cleanup action of `PtyManager::kill`, tagged with the
session id it concerns. -/
inductive KillStep
  | removeSession (id : Nat)
  | killChild (id : Nat)
  | reapChild (id : Nat)
  | dropWriter (id : Nat)
  | dropMaster (id : Nat)
  | joinReader (id : Nat)
deriving DecidableEq, Repr

/-- The ids removed by `PtyManager::kill` from a registry holding `ids`:
all of them for the sentinel 0, else the matching id (pty_manager.rs lines
156–163). -/
def removedIds (ids : List Nat) (sid : Nat) : List Nat :=
  if sid = 0 then ids else ids.filter (fun i => i = sid)

/-- The per-session cleanup of `PtyManager::kill` (pty_manager.rs lines
164–174), in source order: `cleanup_child` (kill, then synchronous wait),
drop the writer, drop the master, then join the reader thread. -/
def cleanupSteps (id : Nat) : List KillStep :=
  [KillStep.killChild id, KillStep.reapChild id, KillStep.dropWriter id,
   KillStep.dropMaster id, KillStep.joinReader id]

/-- The action trace of `PtyManager::kill sid` on a registry holding `ids`:
all removals happen first (under the registry lock), then each removed
session is cleaned up outside the lock. -/
def killTrace (ids : List Nat) (sid : Nat) : List KillStep :=
  (removedIds ids sid).map KillStep.removeSession
  ++ ((removedIds ids sid).map cleanupSteps).flatten

/-- Mirror of `PtyManager::kill` (pty_manager.rs lines 152–176) on the
registry content: returns `Ok` with the new registry and the removed
entries.  The only error path in the source is lock poisoning, which cannot
occur in this single-run model. -/
def PtyManager.kill (r : List (Nat × α)) (sid : Nat) :
    Except String (List (Nat × α) × List (Nat × α)) :=
  if sid = 0 then Except.ok ([], r)
  else Except.ok (r.filter (fun p => p.1 ≠ sid), r.filter (fun p => p.1 = sid))

/-- One step of `PtyManager::spawn` after argument handling, tagged for the
rollback analysis. -/
inductive SpawnStep
  | spawnChild
  | killChild
  | reapChild
  | startReader
  | insertSession
deriving DecidableEq, Repr

/-- Mirror of the fallible scaffolding of `PtyManager::spawn`
(pty_manager.rs lines 50–112): `openR` is the result of `openpty`, `spawnR`
of `spawn_command`, `writerR` of `take_writer`, `readerR` of
`try_clone_reader`.  Returns the trace of child-affecting actions in source
order together with the result: on a writer/reader failure after the child
exists, `cleanup_child` (kill + wait) runs before the error is returned and
no session is inserted. -/
def PtyManager.spawnTrace (openR spawnR writerR readerR : Except String Unit)
    (sessionId : Nat) : List SpawnStep × Except String Nat :=
  match openR with
  | Except.error e => ([], Except.error ("Failed to open PTY: " ++ e))
  | Except.ok _ =>
    match spawnR with
    | Except.error e => ([], Except.error ("Failed to spawn command: " ++ e))
    | Except.ok _ =>
      match writerR with
      | Except.error e =>
        ([SpawnStep.spawnChild, SpawnStep.killChild, SpawnStep.reapChild],
         Except.error ("Failed to get PTY writer: " ++ e))
      | Except.ok _ =>
        match readerR with
        | Except.error e =>
          ([SpawnStep.spawnChild, SpawnStep.killChild, SpawnStep.reapChild],
           Except.error ("Failed to get PTY reader: " ++ e))
        | Except.ok _ =>
          ([SpawnStep.spawnChild, SpawnStep.startReader, SpawnStep.insertSession],
           Except.ok sessionId)

/-- With unique keys, at most one registry entry matches a given id. -/
lemma filter_key_length_le_one {α : Type} (r : List (Nat × α)) (sid : Nat)
    (h : (r.map Prod.fst).Nodup) :
    (r.filter (fun p => p.1 = sid)).length ≤ 1 := by
  induction r with
  | nil => simp
  | cons p t ih =>
    simp only [List.map_cons, List.nodup_cons] at h
    rw [List.filter_cons]
    by_cases hp : p.1 = sid
    · rw [if_pos (by simp [hp])]
      have ht : t.filter (fun q => q.1 = sid) = [] := by
        rw [List.filter_eq_nil_iff]
        intro q hq hqs
        simp only [decide_eq_true_eq] at hqs
        apply h.1
        have : q.1 ∈ t.map Prod.fst := List.mem_map_of_mem Prod.fst hq
        rw [hqs, ← hp] at this
        exact this
      simp [ht]
    · rw [if_neg (by simp [hp])]
      exact ih h.2


/-- C3: `PtyManager::kill 0` removes and terminates every live session;
`kill S` with non-zero `S` removes and terminates exactly the entries whose
id is `S` (at most one when registry keys are unique) and no other; killing
a non-zero id absent from the registry is a no-op returning `Ok`; kill is
idempotent — re-killing returns `Ok` and changes nothing; every removed id
receives the child-kill and synchronous-reap cleanup. -/
theorem kill_semantics :
    ∀ (α : Type) (r : List (Nat × α)) (sid : Nat),
      PtyManager.kill r 0 = Except.ok ([], r)
      ∧ (sid ≠ 0 →
          ∃ reg' removed, PtyManager.kill r sid = Except.ok (reg', removed)
            ∧ (∀ p, p ∈ removed ↔ p ∈ r ∧ p.1 = sid)
            ∧ (∀ p, p ∈ reg' ↔ p ∈ r ∧ p.1 ≠ sid)
            ∧ ((r.map Prod.fst).Nodup → removed.length ≤ 1))
      ∧ (sid ≠ 0 → sid ∉ r.map Prod.fst → PtyManager.kill r sid = Except.ok (r, []))
      ∧ (∀ reg' removed, PtyManager.kill r sid = Except.ok (reg', removed) →
          PtyManager.kill reg' sid = Except.ok (reg', []))
      ∧ (∀ s ∈ removedIds (r.map Prod.fst) sid,
          KillStep.killChild s ∈ killTrace (r.map Prod.fst) sid
          ∧ KillStep.reapChild s ∈ killTrace (r.map Prod.fst) sid) := by
  intro α r sid
  refine ⟨by simp [PtyManager.kill], fun hs => ?_, fun hs hmem => ?_,
    fun reg' removed hk => ?_, fun s hs => ?_⟩
  · refine ⟨r.filter (fun p => p.1 ≠ sid), r.filter (fun p => p.1 = sid),
      by simp [PtyManager.kill, hs], fun p => ?_, fun p => ?_,
      fun hnd => filter_key_length_le_one r sid hnd⟩
    · simp [List.mem_filter]
    · simp [List.mem_filter]
  · unfold PtyManager.kill
    rw [if_neg hs]
    have h1 : r.filter (fun p => p.1 = sid) = [] := by
      rw [List.filter_eq_nil_iff]
      intro q hq hqs
      simp only [decide_eq_true_eq] at hqs
      exact hmem (hqs ▸ List.mem_map_of_mem Prod.fst hq)
    have h2 : r.filter (fun p => p.1 ≠ sid) = r := by
      rw [List.filter_eq_self]
      intro q hq
      simp only [decide_eq_true_eq, ne_eq]
      intro hqs
      exact hmem (hqs ▸ List.mem_map_of_mem Prod.fst hq)
    rw [h1, h2]
  · unfold PtyManager.kill at hk ⊢
    by_cases hs : sid = 0
    · subst hs
      simp only [if_pos rfl] at hk ⊢
      injection hk with hk'
      injection hk' with h1 h2
      subst h1
      rfl
    · rw [if_neg hs] at hk ⊢
      injection hk with hk'
      injection hk' with h1 h2
      subst h1
      have hemp : (r.filter (fun p => p.1 ≠ sid)).filter (fun p => p.1 = sid) = [] := by
        rw [List.filter_eq_nil_iff]
        intro q hq hqs
        simp only [List.mem_filter, decide_eq_true_eq, ne_eq] at hq hqs
        exact absurd hqs (by exact_mod_cast hq.2)
      have hself : (r.filter (fun p => p.1 ≠ sid)).filter (fun p => p.1 ≠ sid) =
          r.filter (fun p => p.1 ≠ sid) := by
        rw [List.filter_eq_self]
        intro q hq
        simp only [List.mem_filter] at hq
        exact hq.2
      rw [hemp, hself]
  · constructor
    · unfold killTrace
      refine List.mem_append.mpr (Or.inr ?_)
      refine List.mem_flatten.mpr ⟨cleanupSteps s, List.mem_map_of_mem cleanupSteps hs, ?_⟩
      simp [cleanupSteps]
    · unfold killTrace
      refine List.mem_append.mpr (Or.inr ?_)
      refine List.mem_flatten.mpr ⟨cleanupSteps s, List.mem_map_of_mem cleanupSteps hs, ?_⟩
      simp [cleanupSteps]

/-- Witness for C3 at concrete registries. -/
theorem kill_semantics_witness :
    PtyManager.kill ([(1, 0)] : List (Nat × Nat)) 2 = Except.ok ([(1, 0)], [])
    ∧ PtyManager.kill ([(1, 0), (2, 0)] : List (Nat × Nat)) 0 =
        Except.ok ([], [(1, 0), (2, 0)])
    ∧ KillStep.killChild 2 ∈ killTrace [1, 2] 0 := by
  refine ⟨(kill_semantics Nat [(1, 0)] 2).2.2.1 (by decide) (by decide),
    (kill_semantics Nat [(1, 0), (2, 0)] 0).1, ?_⟩
  exact ((kill_semantics Nat [(1, 0), (2, 0)] 0).2.2.2.2 2 (by decide)).1

/-- The session id a teardown action concerns. -/
def KillStep.stepSid : KillStep → Nat
  | .removeSession i => i
  | .killChild i => i
  | .reapChild i => i
  | .dropWriter i => i
  | .dropMaster i => i
  | .joinReader i => i

/-- Every action of a session's cleanup block carries that session's id. -/
lemma stepSid_of_mem_cleanup {x : KillStep} {i : Nat} (h : x ∈ cleanupSteps i) :
    x.stepSid = i := by
  simp only [cleanupSteps, List.mem_cons, List.not_mem_nil, or_false] at h
  rcases h with rfl | rfl | rfl | rfl | rfl <;> rfl

/-- C7: whenever `PtyManager::spawn` returns an error, no session is
inserted into the registry, and if the failure occurred after the child was
spawned (writer or reader acquisition), the trace is exactly
spawn-then-kill-then-synchronous-reap — the child is reaped before the error
is returned and no orphaned child remains on any failure path. -/
theorem spawn_rollback :
    ∀ (openR spawnR writerR readerR : Except String Unit) (sid : Nat) (msg : String),
      (PtyManager.spawnTrace openR spawnR writerR readerR sid).2 = Except.error msg →
      SpawnStep.insertSession ∉ (PtyManager.spawnTrace openR spawnR writerR readerR sid).1
      ∧ (SpawnStep.spawnChild ∈ (PtyManager.spawnTrace openR spawnR writerR readerR sid).1 →
          (PtyManager.spawnTrace openR spawnR writerR readerR sid).1 =
            [SpawnStep.spawnChild, SpawnStep.killChild, SpawnStep.reapChild]) := by
  intro openR spawnR writerR readerR sid msg herr
  cases openR <;> cases spawnR <;> cases writerR <;> cases readerR <;>
    simp_all [PtyManager.spawnTrace]

/-- C8: for every session removed by `kill`, the trace contains, in this
strict order and each exactly once (the whole trace is duplicate-free):
removal from the registry, child termination request, synchronous reap,
writer drop, master drop, and only then the reader join. -/
theorem kill_teardown_order :
    ∀ (ids : List Nat) (sid s : Nat), ids.Nodup → s ∈ removedIds ids sid →
      (KillStep.removeSession s :: cleanupSteps s).Sublist (killTrace ids sid)
      ∧ (killTrace ids sid).Nodup := by
  intro ids sid s hnd hs
  have hR : (removedIds ids sid).Nodup := by
    unfold removedIds
    split_ifs
    · exact hnd
    · exact hnd.filter _
  constructor
  · have h1 : [KillStep.removeSession s].Sublist
        ((removedIds ids sid).map KillStep.removeSession) :=
      List.singleton_sublist.mpr (List.mem_map_of_mem KillStep.removeSession hs)
    have h2 : (cleanupSteps s).Sublist (((removedIds ids sid).map cleanupSteps).flatten) :=
      List.sublist_flatten_of_mem (List.mem_map_of_mem cleanupSteps hs)
    exact h1.append h2
  · unfold killTrace
    apply List.Nodup.append
    · exact hR.map (fun a b hab => by injection hab)
    · rw [List.nodup_flatten]
      constructor
      · intro l hl
        rcases List.mem_map.mp hl with ⟨i, -, rfl⟩
        simp [cleanupSteps]
      · refine List.Pairwise.map cleanupSteps ?_ hR
        intro a b hab x hxa hxb
        exact hab ((stepSid_of_mem_cleanup hxa).symm.trans (stepSid_of_mem_cleanup hxb))
    · intro x hxa hxb
      rcases List.mem_map.mp hxa with ⟨i, -, rfl⟩
      rcases List.mem_flatten.mp hxb with ⟨l, hl, hxl⟩
      rcases List.mem_map.mp hl with ⟨j, -, rfl⟩
      simp [cleanupSteps] at hxl

/-- Witness for C7: a writer-acquisition failure after the child is spawned. -/
theorem spawn_rollback_witness :
    SpawnStep.insertSession ∉
      (PtyManager.spawnTrace (Except.ok ()) (Except.ok ())
        (Except.error "w") (Except.ok ()) 5).1
    ∧ (PtyManager.spawnTrace (Except.ok ()) (Except.ok ())
        (Except.error "w") (Except.ok ()) 5).1 =
        [SpawnStep.spawnChild, SpawnStep.killChild, SpawnStep.reapChild] := by
  have h := spawn_rollback (Except.ok ()) (Except.ok ()) (Except.error "w")
    (Except.ok ()) 5 ("Failed to get PTY writer: " ++ "w") rfl
  exact ⟨h.1, h.2 (by decide)⟩

/-- Witness for C8 on a one-session registry. -/
theorem kill_teardown_order_witness :
    (KillStep.removeSession 5 :: cleanupSteps 5).Sublist (killTrace [5] 5)
    ∧ (killTrace [5] 5).Nodup :=
  kill_teardown_order [5] 5 5 (by decide) (by decide)

/-! ## Session id allocation (pty_manager.rs lines 9, 57–61) -/

/-- Mirror of the id allocation loop of `PtyManager::spawn`: `SESSION_COUNTER`
is an `AtomicU64` starting at 0; each try performs `fetch_add(1)` (returning
the old value) and takes `old.wrapping_add(1)` — the new counter value — as
the candidate id, repeating while the candidate is 0.  A second try always
yields `(0 + 1) % 2^64 = 1 ≠ 0`, so two unrollings are exhaustive.  The
atomic increments are linearizable, so concurrent callers see the same
sequential counter history modelled here.  Returns (new counter value,
allocated id). -/
def allocate (counter : Nat) : Nat × Nat :=
  let c1 := (counter + 1) % 2 ^ 64
  if c1 ≠ 0 then (c1, c1)
  else ((c1 + 1) % 2 ^ 64, (c1 + 1) % 2 ^ 64)

/-- The counter value after `n` allocations from the initial counter 0. -/
def allocCounter : Nat → Nat
  | 0 => 0
  | n + 1 => (allocate (allocCounter n)).1

/-- The id returned by allocation number `n + 1` (0-indexed). -/
def allocId (n : Nat) : Nat := (allocate (allocCounter n)).2

/-- Unfolding equation for `allocId`, kept propositional so later
instantiations at large numerals never force kernel evaluation. -/
lemma allocId_def (n : Nat) : allocId n = (allocate (allocCounter n)).2 := rfl

/-- Before the counter first wraps, the counter simply counts allocations. -/
lemma allocCounter_eq_self : ∀ n, n ≤ 2 ^ 64 - 1 → allocCounter n = n := by
  intro n
  induction n with
  | zero => intro _; rfl
  | succ n ih =>
    intro h
    show (allocate (allocCounter n)).1 = n + 1
    rw [ih (by omega)]
    unfold allocate
    have h1 : (n + 1) % 2 ^ 64 = n + 1 := Nat.mod_eq_of_lt (by omega)
    simp only [h1]
    rw [if_pos (by omega)]

/-- Before the wrap, allocation `n` returns id `n + 1`. -/
lemma allocId_small {n : Nat} (h : n ≤ 2 ^ 64 - 2) : allocId n = n + 1 := by
  unfold allocId
  rw [allocCounter_eq_self n (by omega)]
  unfold allocate
  have h1 : (n + 1) % 2 ^ 64 = n + 1 := Nat.mod_eq_of_lt (by omega)
  simp only [h1]
  rw [if_pos (by omega)]

/-- The allocation that wraps the 64-bit counter re-issues id 1. -/
lemma allocate_wrap : (allocate (2 ^ 64 - 1)).2 = 1 := by
  have hc : ((2 ^ 64 - 1 : Nat) + 1) % 2 ^ 64 = 0 := by
    rw [Nat.sub_add_cancel (by norm_num : (1 : Nat) ≤ 2 ^ 64), Nat.mod_self]
  simp only [allocate, hc]
  norm_num

/-- C9 counterexample: the allocator is not monotonically increasing and its
ids are not pairwise distinct over every call sequence — allocation number
`2^64` wraps the 64-bit counter and re-issues id 1, which the very first
allocation already returned, and which is smaller than the immediately
preceding id `2^64 - 1`. -/
theorem session_id_allocator_counterexample :
    allocId 0 = 1 ∧ allocId (2 ^ 64 - 1) = 1 ∧ (0 : Nat) ≠ 2 ^ 64 - 1
    ∧ allocId (2 ^ 64 - 2) = 2 ^ 64 - 1
    ∧ allocId (2 ^ 64 - 1) < allocId (2 ^ 64 - 2) := by
  have h0 : allocId 0 = 1 := allocId_small (by norm_num)
  have h2 : allocId (2 ^ 64 - 2) = 2 ^ 64 - 1 := by
    rw [allocId_small (le_refl _)]
    omega
  have h1 : allocId (2 ^ 64 - 1) = 1 :=
    (allocId_def _).trans
      ((congrArg (fun c => (allocate c).2)
          (allocCounter_eq_self _ (le_refl _))).trans allocate_wrap)
  refine ⟨h0, h1, by norm_num, h2, by rw [h1, h2]; norm_num⟩

/-- C9 (amended): the allocator never returns 0 (re-incrementing when the
increment would yield 0), and over the first `2^64 − 1` allocations — before
the 64-bit counter wraps — the issued ids are `1, 2, 3, …`: strictly
increasing, hence pairwise distinct, so no two live sessions share an id
within that horizon. -/
theorem session_id_allocator_amended :
    (∀ counter : Nat, (allocate counter).2 ≠ 0)
    ∧ (∀ i j : Nat, i < j → j ≤ 2 ^ 64 - 2 → allocId i < allocId j)
    ∧ (∀ i : Nat, i ≤ 2 ^ 64 - 2 → allocId i = i + 1) := by
  refine ⟨fun counter => ?_, fun i j hij hj => ?_, fun i hi => allocId_small hi⟩
  · simp only [allocate]
    split_ifs with h
    · exact h
    · push_neg at h
      rw [h]
      norm_num
  · rw [allocId_small (by omega), allocId_small hj]
    omega

/-- Witness for the amended C9 at the first two allocations. -/
theorem session_id_allocator_amended_witness :
    allocId 0 < allocId 1 ∧ (allocate 7).2 ≠ 0 :=
  ⟨session_id_allocator_amended.2.1 0 1 (by norm_num) (by norm_num),
   session_id_allocator_amended.1 7⟩

/-! ## lib.rs: argument validation and pty_spawn settings replacement -/

/-- Mirror of `ALLOWED_ARGS` (lib.rs lines 12–17). -/
def ALLOWED_ARGS : List String := ["onboard", "--skip-daemon", "gateway", "tui"]

/-- Mirror of `validate_args` (lib.rs lines 19–26): errors on the first
argument outside the allowlist. -/
def validate_args : List String → Except String Unit
  | [] => Except.ok ()
  | a :: rest =>
    if ALLOWED_ARGS.contains a then validate_args rest
    else Except.error ("Disallowed argument: " ++ a)

/-- Result of one `pty_spawn` command invocation: the command's return value
and the settings stored in `AppState` afterwards. -/
structure PtySpawnOutcome where
  result : Except String Nat
  stored : Settings
deriving Repr

/-- Mirror of `pty_spawn` (lib.rs lines 33–55): size check, argument
validation, then the stored settings are overwritten with the caller's
settings, then `build_openclaw_command` (its success abstracted as `buildR`)
and `PtyManager::spawn` (abstracted as `spawnR`) run.  No path after the
overwrite restores the previous settings. -/
def pty_spawn (stored settings : Settings) (args : List String) (cols rows : Nat)
    (buildR : Except String Unit) (spawnR : Except String Nat) : PtySpawnOutcome :=
  if cols = 0 ∨ rows = 0 then
    ⟨Except.error "cols and rows must be non-zero", stored⟩
  else
    match validate_args args with
    | Except.error e => ⟨Except.error e, stored⟩
    | Except.ok _ =>
      match buildR with
      | Except.error e => ⟨Except.error e, settings⟩
      | Except.ok _ =>
        match spawnR with
        | Except.error e => ⟨Except.error e, settings⟩
        | Except.ok sid => ⟨Except.ok sid, settings⟩

/-- C10: once the size check and argument validation pass, `pty_spawn`
overwrites the stored settings with the caller-supplied settings, and the
overwrite survives every later failure (command build or spawn) — no
rollback on any spawn failure path.  Before validation succeeds, the stored
settings are untouched. -/
theorem pty_spawn_settings_update :
    ∀ (stored settings : Settings) (args : List String) (cols rows : Nat)
      (buildR : Except String Unit) (spawnR : Except String Nat),
      (cols ≠ 0 → rows ≠ 0 → validate_args args = Except.ok () →
        (pty_spawn stored settings args cols rows buildR spawnR).stored = settings)
      ∧ (cols = 0 ∨ rows = 0 ∨ validate_args args ≠ Except.ok () →
        (pty_spawn stored settings args cols rows buildR spawnR).stored = stored) := by
  intro stored settings args cols rows buildR spawnR
  constructor
  · intro hc hr hv
    unfold pty_spawn
    rw [if_neg (by tauto), hv]
    cases buildR with
    | error e => rfl
    | ok u => cases spawnR <;> rfl
  · intro hbad
    unfold pty_spawn
    by_cases hsz : cols = 0 ∨ rows = 0
    · rw [if_pos hsz]
    · rw [if_neg hsz]
      have hv : validate_args args ≠ Except.ok () := by tauto
      cases hva : validate_args args with
      | error e => rfl
      | ok u => exact absurd hva hv

/-- Witness for C10: a build failure keeps the replaced settings; a rejected
argument leaves the old settings in place. -/
theorem pty_spawn_settings_update_witness :
    (pty_spawn ⟨[("OLD_API_KEY", "1")]⟩ ⟨[]⟩ ["gateway"] 80 24
      (Except.error "boom") (Except.ok 1)).stored = ⟨[]⟩
    ∧ (pty_spawn ⟨[("OLD_API_KEY", "1")]⟩ ⟨[]⟩ ["rm-rf"] 80 24
      (Except.ok ()) (Except.ok 1)).stored = ⟨[("OLD_API_KEY", "1")]⟩ := by
  constructor
  · exact (pty_spawn_settings_update ⟨[("OLD_API_KEY", "1")]⟩ ⟨[]⟩ ["gateway"]
      80 24 (Except.error "boom") (Except.ok 1)).1 (by decide) (by decide) rfl
  · exact (pty_spawn_settings_update ⟨[("OLD_API_KEY", "1")]⟩ ⟨[]⟩ ["rm-rf"]
      80 24 (Except.ok ()) (Except.ok 1)).2
      (Or.inr (Or.inr (fun h => Except.noConfusion h)))
